import Mathlib

/-!
Shallow embedding of the open-addressing hash table from `hash-table.hpp`
(the C++ template, instantiated at `Key = Nat`, `T = Nat`,
`KeyEqual = std::equal_to`, with the injected `Hash` functor kept as an
explicit function parameter `hashf : Nat → Nat`) and of the C implementation
in `ht-hash.c` (string keys and values modelled as byte lists).

Machine words (`size_t`) are modelled as `Nat` with explicit `% 2^64`
where the source relies on wraparound. The probe loops of the source are
`while` loops that need not terminate (the table can be full); they are
modelled with an explicit fuel argument, `none` meaning that the loop did
not finish within `fuel` iterations.
-/

/-- The modulus of `size_t` arithmetic, `2^64`. -/
def U64 : Nat := 18446744073709551616

/-- The golden-ratio multiplier `FIB_MULT` from both sources. -/
def FIB_MULT : Nat := 11400714819323198485

/-- Bit length of a natural number, computed by fuel-bounded halving
(total and kernel-reducible; correct for `x < 2^64`). -/
def bitLenAux : Nat → Nat → Nat
  | _, 0 => 0
  | x, f + 1 => if x = 0 then 0 else bitLenAux (x / 2) f + 1

/-- Bit length of a 64-bit word. -/
def bitLen (x : Nat) : Nat := bitLenAux x 64

/-- Number of leading zero bits of a nonzero 64-bit word: models
`__builtin_clzll` / `std::countl_zero` (defined for `0 < x < 2^64`). -/
def clz64 (x : Nat) : Nat := 64 - bitLen x

/-- The pre-C++20 `bit_ceil` helper from `hash-table.hpp` (and the same
or-shift cascade inlined in `ht_resize` / `ht_shrink_to_fit` in `ht-hash.c`):
decrement (wrapping), fill all lower bits, increment. -/
def bit_ceil (x : Nat) : Nat :=
  let a := (x + (U64 - 1)) % U64
  let a := a ||| (a >>> 1)
  let a := a ||| (a >>> 2)
  let a := a ||| (a >>> 4)
  let a := a ||| (a >>> 8)
  let a := a ||| (a >>> 16)
  let a := a ||| (a >>> 32)
  (a + 1) % U64

/-- A slot of the C++ table: `std::optional<std::pair<const Key, T>>`. -/
abbrev CppSlot := Option (Nat × Nat)

/-- State of the C++ `HashTable<Nat, Nat>`: `capacity`, `len` and the slot
array (a list of `capacity` optional pairs; the empty list when
`capacity = 0`, mirroring the absent allocation). -/
structure CppTable where
  capacity : Nat
  len : Nat
  items : List CppSlot
deriving Repr, DecidableEq

/-- `HashTable()`: the default constructor (capacity 0, length 0, no array). -/
def cppNew : CppTable := ⟨0, 0, []⟩

/-- `HashTable(bucket_count)`: capacity 0 when the hint is 0, otherwise
`bit_ceil(bucket_count)` zero-initialised slots. -/
def cppMk (bucketCount : Nat) : CppTable :=
  if bucketCount = 0 then ⟨0, 0, []⟩
  else ⟨bit_ceil bucketCount, 0, List.replicate (bit_ceil bucketCount) none⟩

/-- `HashTable::hash`: Fibonacci mixing then a right shift by
`countl_zero(cap) + 1`, keeping the top bits of the wrapped product. -/
def cppHash (hashf : Nat → Nat) (val cap : Nat) : Nat :=
  let shift := clz64 cap + 1
  ((hashf val * FIB_MULT) % U64) >>> shift

/-- The `while` loop of `HashTable::index_of`. The `attempts` counter is
carried exactly as in the source: it is initialised to 0 and compared
against `capacity`, but never incremented. `none` = loop still running
after `fuel` iterations. -/
def cppIndexOfAux (t : CppTable) (key : Nat) : Nat → Nat → Nat → Option (Bool × Nat)
  | _, _, 0 => none
  | index, attempts, fuel + 1 =>
    match t.items.getD index none with
    | none => some (false, index)
    | some (k, _) =>
      if k = key then some (true, index)
      else
        let index := (index + 1) &&& (t.capacity - 1)
        if attempts > t.capacity then some (false, index)
        else cppIndexOfAux t key index attempts fuel

/-- `HashTable::index_of`: returns `(found?, index)`; `(false, 0)` at once
when the capacity is 0. -/
def cppIndexOf (hashf : Nat → Nat) (t : CppTable) (key : Nat) (fuel : Nat) :
    Option (Bool × Nat) :=
  if t.capacity = 0 then some (false, 0)
  else cppIndexOfAux t key (cppHash hashf key t.capacity) 0 fuel

/-- The `while` loop of `HashTable::inner_insert`: probe while occupied,
place the pair in the first empty slot, return the array and the index. -/
def cppInnerInsertAux (cap : Nat) (pair : Nat × Nat) :
    List CppSlot → Nat → Nat → Option (List CppSlot × Nat)
  | _, _, 0 => none
  | items, index, fuel + 1 =>
    match items.getD index none with
    | none => some (items.set index (some pair), index)
    | some _ => cppInnerInsertAux cap pair items ((index + 1) &&& (cap - 1)) fuel

/-- `HashTable::inner_insert` (assumes the key is not present). -/
def cppInnerInsert (hashf : Nat → Nat) (items : List CppSlot) (cap : Nat)
    (pair : Nat × Nat) (fuel : Nat) : Option (List CppSlot × Nat) :=
  cppInnerInsertAux cap pair items (cppHash hashf pair.1 cap) fuel

/-- The re-homing loop of `HashTable::reserve_exact`: every occupied slot of
the old array is re-inserted into the new one. -/
def cppRehome (hashf : Nat → Nat) (newCap : Nat) :
    List CppSlot → List CppSlot → Nat → Option (List CppSlot)
  | [], newItems, _ => some newItems
  | none :: rest, newItems, fuel => cppRehome hashf newCap rest newItems fuel
  | some pair :: rest, newItems, fuel =>
    match cppInnerInsert hashf newItems newCap pair fuel with
    | none => none
    | some (newItems, _) => cppRehome hashf newCap rest newItems fuel

/-- `HashTable::reserve_exact(old_cap, new_cap)`: allocate `new_cap` empty
slots, re-home every occupied slot, install the new array and capacity
(`len` is untouched). -/
def cppReserveExact (hashf : Nat → Nat) (t : CppTable) (newCap fuel : Nat) :
    Option CppTable :=
  match cppRehome hashf newCap t.items (List.replicate newCap none) fuel with
  | none => none
  | some newItems => some { t with items := newItems, capacity := newCap }

/-- `HashTable::emplace_unique_hint(hint, pair)` with the hint given as a
slot index (`hint = items + hintIdx`; `hint ≠ end()` is `hintIdx ≠ capacity`).
Returns the table, the index of the handle returned, and the `inserted?`
flag. -/
def cppEmplaceUniqueHint (hashf : Nat → Nat) (t : CppTable) (hintIdx : Nat)
    (pair : Nat × Nat) (fuel : Nat) : Option (CppTable × Nat × Bool) :=
  let slot := t.items.getD hintIdx none
  if hintIdx ≠ t.capacity ∧ (slot.isNone ∨ slot.any (fun p => p.1 == pair.1)) then
    let hadValue := slot.isSome
    let t := { t with items := t.items.set hintIdx (some pair) }
    if hadValue then some (t, hintIdx, false)
    else
      let cap := t.capacity
      let lenOld := t.len
      let t := { t with len := lenOld + 1 }
      if lenOld <<< 2 > (cap <<< 1) + cap then
        match cppReserveExact hashf t (cap <<< 1) fuel with
        | none => none
        | some t => some (t, hintIdx, true)
      else some (t, hintIdx, true)
  else
    let t0 := if t.capacity = 0 then
        { t with items := List.replicate 32 (none : CppSlot), capacity := 32 }
      else t
    let cap := t0.capacity
    let lenOld := t0.len
    let t1 := { t0 with len := lenOld + 1 }
    if lenOld <<< 2 > (cap <<< 1) + cap then
      match cppReserveExact hashf t1 (cap <<< 1) fuel with
      | none => none
      | some t2 =>
        match cppInnerInsert hashf t2.items (cap <<< 1) pair fuel with
        | none => none
        | some (items, idx) => some ({ t2 with items := items }, idx, true)
    else
      match cppInnerInsert hashf t1.items cap pair fuel with
      | none => none
      | some (items, idx) => some ({ t1 with items := items }, idx, true)

/-- `HashTable::emplace(k, v)` (the path `insert` and `insert_or_assign`
delegate to): probe with `index_of`; an existing key is returned untouched
with `inserted? = false`; otherwise `emplace_unique_hint` runs with the
final probe index as the hint. -/
def cppEmplace (hashf : Nat → Nat) (t : CppTable) (key val fuel : Nat) :
    Option (CppTable × Nat × Bool) :=
  match cppIndexOf hashf t key fuel with
  | none => none
  | some (true, curIndex) => some (t, curIndex, false)
  | some (false, curIndex) => cppEmplaceUniqueHint hashf t curIndex (key, val) fuel

/-- `HashTable::insert_unique(k, v)`: initial allocation at capacity 32 when
needed, the 75% resize check on the pre-increment length, then
`inner_insert` without any duplicate probe. -/
def cppInsertUnique (hashf : Nat → Nat) (t : CppTable) (key val fuel : Nat) :
    Option (CppTable × Nat × Bool) :=
  let t0 := if t.capacity = 0 then
      { t with items := List.replicate 32 (none : CppSlot), capacity := 32 }
    else t
  let cap := t0.capacity
  let lenOld := t0.len
  let t1 := { t0 with len := lenOld + 1 }
  if lenOld <<< 2 > (cap <<< 1) + cap then
    match cppReserveExact hashf t1 (cap <<< 1) fuel with
    | none => none
    | some t2 =>
      match cppInnerInsert hashf t2.items (cap <<< 1) (key, val) fuel with
      | none => none
      | some (items, idx) => some ({ t2 with items := items }, idx, true)
  else
    match cppInnerInsert hashf t1.items cap (key, val) fuel with
    | none => none
    | some (items, idx) => some ({ t1 with items := items }, idx, true)

/-- `HashTable::find_or_insert(k)`: initial allocation when capacity is 0,
then `index_of`; an absent key is default-inserted at the final probe
index with no resize check at all. Returns the table and the slot index. -/
def cppFindOrInsert (hashf : Nat → Nat) (t : CppTable) (key fuel : Nat) :
    Option (CppTable × Nat) :=
  let t := if t.capacity = 0 then
      { t with items := List.replicate 32 (none : CppSlot), capacity := 32 }
    else t
  match cppIndexOf hashf t key fuel with
  | none => none
  | some (true, index) => some (t, index)
  | some (false, index) =>
    some ({ t with len := t.len + 1, items := t.items.set index (some (key, 0)) }, index)

/-- `HashTable::find(k)`: the slot index when found, `none` for `end()`. -/
def cppFind (hashf : Nat → Nat) (t : CppTable) (key fuel : Nat) :
    Option (Option Nat) :=
  match cppIndexOf hashf t key fuel with
  | none => none
  | some (true, index) => some (some index)
  | some (false, _) => some none

/-- `HashTable::contains(k)`. -/
def cppContains (hashf : Nat → Nat) (t : CppTable) (key fuel : Nat) : Option Bool :=
  match cppIndexOf hashf t key fuel with
  | none => none
  | some (found, _) => some found

/-- `HashTable::count(k)`. -/
def cppCount (hashf : Nat → Nat) (t : CppTable) (key fuel : Nat) : Option Nat :=
  match cppIndexOf hashf t key fuel with
  | none => none
  | some (found, _) => some (if found then 1 else 0)

/-- `HashTable::erase(const Key&)`: probe; on a hit reset the slot and
decrement `len`, returning 1, otherwise return 0. No backward-shift
compaction is performed. -/
def cppEraseKey (hashf : Nat → Nat) (t : CppTable) (key fuel : Nat) :
    Option (CppTable × Nat) :=
  match cppIndexOf hashf t key fuel with
  | none => none
  | some (true, index) =>
    some ({ t with items := t.items.set index none, len := t.len - 1 }, 1)
  | some (false, _) => some (t, 0)

/-- `HashTable::clear()`: back to capacity 0 and no array. -/
def cppClear (t : CppTable) : CppTable := ⟨0, 0, []⟩

/-- `HashTable::shrink_to_fit()`: on an empty table, `clear`; otherwise the
source computes `bit_ceil(capacity)` (not of `len`) and returns unless that
is smaller than the capacity. -/
def cppShrinkToFit (hashf : Nat → Nat) (t : CppTable) (fuel : Nat) :
    Option CppTable :=
  if t.len = 0 then some (cppClear t)
  else
    let newCap := bit_ceil t.capacity
    if newCap ≥ t.capacity then some t
    else cppReserveExact hashf t newCap fuel

/-- `HashTable::reserve(min_capacity)`: grow-only to `bit_ceil` of the
request. -/
def cppReserve (hashf : Nat → Nat) (t : CppTable) (minCapacity fuel : Nat) :
    Option CppTable :=
  if minCapacity ≤ t.capacity then some t
  else cppReserveExact hashf t (bit_ceil minCapacity) fuel

/-- `HashTable::max_load_factor()` (the getter): the source returns the
float literal `1.0`, modelled exactly as the rational 1. -/
def cppMaxLoadFactor : ℚ := 1

/-- `HashTable::max_load_factor(ml)` (the setter): the body discards `ml`
and changes nothing. -/
def cppSetMaxLoadFactor (t : CppTable) (ml : ℚ) : CppTable := t

/-- A C string, modelled as its list of byte values. -/
abbrev CStr := List Nat

/-- State of the C `ht_hash_table`: `capacity`, `size` and the item array
(`key == NULL` modelled as `none`). -/
structure HtC where
  capacity : Nat
  size : Nat
  items : List (Option (CStr × CStr))
deriving Repr, DecidableEq

/-- The C initial capacity `HT_INITIAL_CAPACITY` (`ht-hash.c`, line 7). -/
def HT_INITIAL_CAPACITY : Nat := 64

/-- `ht_new` / a zero-initialised `ht_hash_table`. -/
def htNew : HtC := ⟨0, 0, []⟩

/-- Number of trailing zero bits, by fuel-bounded halving: models
`__builtin_ctz` on a nonzero word. -/
def ctzAux : Nat → Nat → Nat
  | _, 0 => 0
  | x, f + 1 => if x % 2 = 1 then 0 else ctzAux (x / 2) f + 1

/-- Trailing-zero count of a 64-bit word. -/
def ctz64 (x : Nat) : Nat := ctzAux x 64

/-- The accumulation loop of `ht_hash`: `hash += mult * s[i]; mult *= 151`,
both wrapping modulo `2^64`. -/
def htPolyAux : CStr → Nat → Nat → Nat
  | [], h, _ => h
  | c :: rest, h, m => htPolyAux rest ((h + m * c) % U64) ((m * 151) % U64)

/-- `ht_hash(s, len, cap)`: 0 when `cap = 0`, otherwise the polynomial
string hash mixed by `FIB_MULT` and shifted right by `64 - ctz(cap)`. -/
def htHash (s : CStr) (cap : Nat) : Nat :=
  if cap = 0 then 0
  else
    let shift := 64 - ctz64 cap
    ((htPolyAux s 0 1 * FIB_MULT) % U64) >>> shift

/-- The key comparison of `ht_find`: `strncmp(stored, key, strlen(key)) == 0`,
which holds exactly when `key` is a prefix of the stored key (or equal). -/
def htKeyMatch (stored key : CStr) : Bool := stored.take key.length == key

/-- The `while` loop of `ht_find`. The step is
`index = (index + (attempts << 1) + 1) & (cap - 1)` followed by the guard
`attempts++ > size << 1`: successive probe increments are the odd numbers
1, 3, 5, .... Result `some (some i)` = found at `i`, `some none` = absent,
`none` = fuel exhausted. -/
def htFindAux (t : HtC) (key : CStr) : Nat → Nat → Nat → Option (Option Nat)
  | _, _, 0 => none
  | index, attempts, fuel + 1 =>
    match t.items.getD index none with
    | none => some none
    | some (k, _) =>
      if htKeyMatch k key then some (some index)
      else
        let index := (index + (attempts <<< 1) + 1) &&& (t.capacity - 1)
        if attempts > t.size <<< 1 then some none
        else htFindAux t key index (attempts + 1) fuel

/-- `ht_find`: `false` at once when the capacity is 0, otherwise the probe
loop starting at `ht_hash(key)`. -/
def htFind (t : HtC) (key : CStr) (fuel : Nat) : Option (Option Nat) :=
  if t.capacity = 0 then some none
  else htFindAux t key (htHash key t.capacity) 0 fuel

/-- The `while` loop of `ht_insert_inner`: probe while occupied with the
step `(index + (attempts++ << 1) + 1) & (cap - 1)`, place the pair in the
first empty slot, return the array and the index. -/
def htInsertInnerAux (cap : Nat) (key val : CStr) :
    List (Option (CStr × CStr)) → Nat → Nat → Nat →
    Option (List (Option (CStr × CStr)) × Nat)
  | _, _, _, 0 => none
  | items, index, attempts, fuel + 1 =>
    match items.getD index none with
    | none => some (items.set index (some (key, val)), index)
    | some _ =>
      htInsertInnerAux cap key val items
        ((index + (attempts <<< 1) + 1) &&& (cap - 1)) (attempts + 1) fuel

/-- `ht_insert_inner(items, cap, key, value)`. -/
def htInsertInner (items : List (Option (CStr × CStr))) (cap : Nat)
    (key val : CStr) (fuel : Nat) : Option (List (Option (CStr × CStr)) × Nat) :=
  htInsertInnerAux cap key val items (htHash key cap) 0 fuel

/-- The re-homing loop of `ht_resize_exact`. -/
def htRehome (newCap : Nat) :
    List (Option (CStr × CStr)) → List (Option (CStr × CStr)) → Nat →
    Option (List (Option (CStr × CStr)))
  | [], newItems, _ => some newItems
  | none :: rest, newItems, fuel => htRehome newCap rest newItems fuel
  | some (k, v) :: rest, newItems, fuel =>
    match htInsertInner newItems newCap k v fuel with
    | none => none
    | some (newItems, _) => htRehome newCap rest newItems fuel

/-- `ht_resize_exact(ht, old_cap, new_cap)` (successful-allocation path). -/
def htResizeExact (t : HtC) (newCap fuel : Nat) : Option HtC :=
  match htRehome newCap t.items (List.replicate newCap none) fuel with
  | none => none
  | some newItems => some { t with items := newItems, capacity := newCap }

/-- `ht_insert_unique(ht, key, value)`: on a fresh table, allocate
`HT_INITIAL_CAPACITY` slots and place the pair directly at its hash index
without touching `size`; otherwise run the 75% resize check on the
pre-increment `size` and call `ht_insert_inner`. -/
def htInsertUnique (t : HtC) (key val : CStr) (fuel : Nat) : Option HtC :=
  if t.capacity = 0 then
    let cap := HT_INITIAL_CAPACITY
    let idx := htHash key cap
    some { t with capacity := cap,
                  items := (List.replicate cap none).set idx (some (key, val)) }
  else
    let cap := t.capacity
    let sizeOld := t.size
    let t1 := { t with size := sizeOld + 1 }
    if sizeOld <<< 2 > (cap <<< 1) + cap then
      match htResizeExact t1 (cap <<< 1) fuel with
      | none => none
      | some t2 =>
        match htInsertInner t2.items (cap <<< 1) key val fuel with
        | none => none
        | some (items, _) => some { t2 with items := items }
    else
      match htInsertInner t1.items cap key val fuel with
      | none => none
      | some (items, _) => some { t1 with items := items }

/-- `ht_insert(ht, key, value)`: when `ht_find` locates the key, the stored
value is replaced in place (the stored key and `size` are untouched);
otherwise it defers to `ht_insert_unique`. -/
def htInsert (t : HtC) (key val : CStr) (fuel : Nat) : Option HtC :=
  match htFind t key fuel with
  | none => none
  | some (some index) =>
    match t.items.getD index none with
    | none => none
    | some (k0, _) => some { t with items := t.items.set index (some (k0, val)) }
  | some none => htInsertUnique t key val fuel

/-- `ht_remove(ht, key)`: on a hit, null the key of the slot and decrement
`size`; no backward-shift compaction is performed. -/
def htRemove (t : HtC) (key : CStr) (fuel : Nat) : Option (HtC × Bool) :=
  match htFind t key fuel with
  | none => none
  | some (some index) =>
    some ({ t with items := t.items.set index none, size := t.size - 1 }, true)
  | some none => some (t, false)

/-- `ht_shrink_to_fit(ht)`: clear when empty; otherwise round `size` up to
the next power of two with the or-shift cascade and re-home unless the
result equals the capacity. -/
def htShrinkToFit (t : HtC) (fuel : Nat) : Option HtC :=
  if t.size = 0 then some ⟨0, 0, []⟩
  else
    let newCap := bit_ceil t.size
    if newCap = t.capacity then some t
    else htResizeExact t newCap fuel

/-! ## Helper lemmas -/

/-- Bit length of a power of two below the word width. -/
theorem bitLen_two_pow : ∀ n : Nat, n ≤ 63 → bitLen (2 ^ n) = n + 1 := by decide

/-- The or-shift cascade is the identity on powers of two below the word
width. -/
theorem bit_ceil_two_pow : ∀ n : Nat, n ≤ 63 → bit_ceil (2 ^ n) = 2 ^ n := by decide

/-- Indexing an all-empty slot array yields an empty slot. -/
theorem getD_replicate_none (n i : Nat) :
    (List.replicate n (none : CppSlot)).getD i none = none := by
  induction n generalizing i with
  | zero => rfl
  | succ m ih =>
    cases i with
    | zero => rfl
    | succ j => simp only [List.replicate_succ, List.getD_cons_succ]; exact ih j

/-- A successful `reserve_exact` installs the requested capacity and leaves
`len` unchanged. -/
theorem cppReserveExact_len_cap {hashf : Nat → Nat} {t : CppTable}
    {newCap fuel : Nat} {t' : CppTable}
    (h : cppReserveExact hashf t newCap fuel = some t') :
    t'.len = t.len ∧ t'.capacity = newCap := by
  unfold cppReserveExact at h
  cases hre : cppRehome hashf newCap t.items (List.replicate newCap none) fuel with
  | none => rw [hre] at h; exact absurd h (by simp)
  | some items => rw [hre] at h; cases h; exact ⟨rfl, rfl⟩

/-! ## C6: Fibonacci slot mapping -/

/-- C6: for every hash functor, key and capacity `2^n` (`n ≤ 63`, the
representable powers of two), the slot index computed by `HashTable::hash`
equals the top `n` bits of the wrapped product
`(h(k) * 11400714819323198485) mod 2^64`, and lies in `[0, capacity)`. -/
theorem c6_hash_is_top_bits_of_fib_product (hashf : Nat → Nat) (k n : Nat)
    (hn : n ≤ 63) :
    cppHash hashf k (2 ^ n) = ((hashf k * FIB_MULT) % 2 ^ 64) >>> (64 - n) ∧
    cppHash hashf k (2 ^ n) < 2 ^ n := by
  have hclz : clz64 (2 ^ n) = 63 - n := by
    unfold clz64
    rw [bitLen_two_pow n hn]
    omega
  have hshift : clz64 (2 ^ n) + 1 = 64 - n := by omega
  have hU : U64 = 2 ^ 64 := by decide
  constructor
  · unfold cppHash
    rw [hshift, hU]
  · unfold cppHash
    rw [hshift, hU, Nat.shiftRight_eq_div_pow]
    have hpos : 0 < 2 ^ (64 - n) := Nat.pos_pow_of_pos _ (by omega)
    rw [Nat.div_lt_iff_lt_mul hpos, ← pow_add]
    have : n + (64 - n) = 64 := by omega
    rw [this]
    exact Nat.mod_lt _ (by positivity)

/-- Witness for C6 at `hashf = id`, `k = 7`, `n = 5`. -/
theorem c6_hash_is_top_bits_of_fib_product_witness :
    cppHash id 7 (2 ^ 5) = ((id 7 * FIB_MULT) % 2 ^ 64) >>> (64 - 5) ∧
    cppHash id 7 (2 ^ 5) < 2 ^ 5 :=
  c6_hash_is_top_bits_of_fib_product id 7 5 (by decide)

/-! ## C9: max_load_factor -/

/-- C9 counterexample: the getter `max_load_factor()` returns 1.0, not the
constant 0.75 the claim states. -/
theorem c9_max_load_factor_not_three_quarters :
    cppMaxLoadFactor ≠ 3 / 4 := by
  unfold cppMaxLoadFactor
  norm_num

/-- C9 amended: `max_load_factor()` returns the constant 1.0, and the
setter discards its argument, changing no table state. -/
theorem c9_max_load_factor_one_and_setter_noop :
    cppMaxLoadFactor = 1 ∧ ∀ (t : CppTable) (ml : ℚ), cppSetMaxLoadFactor t ml = t :=
  ⟨rfl, fun _ _ => rfl⟩

/-! ## C10: operations on a capacity-0 table -/

/-- C10: on a table with capacity 0, every probe reports the key absent
without touching the (absent) slot array: `find` returns the end sentinel,
`contains` is false, `count` is 0, and `erase` removes nothing and leaves
the table unchanged. -/
theorem c10_capacity_zero_operations (hashf : Nat → Nat) (t : CppTable)
    (key fuel : Nat) (h : t.capacity = 0) :
    cppIndexOf hashf t key fuel = some (false, 0) ∧
    cppFind hashf t key fuel = some none ∧
    cppContains hashf t key fuel = some false ∧
    cppCount hashf t key fuel = some 0 ∧
    cppEraseKey hashf t key fuel = some (t, 0) := by
  have hidx : cppIndexOf hashf t key fuel = some (false, 0) := by
    unfold cppIndexOf
    rw [h]
    rfl
  refine ⟨hidx, ?_, ?_, ?_, ?_⟩ <;>
    simp [cppFind, cppContains, cppCount, cppEraseKey, hidx]

/-- Witness for C10 on the freshly constructed table. -/
theorem c10_capacity_zero_operations_witness :
    cppIndexOf id cppNew 42 9 = some (false, 0) ∧
    cppFind id cppNew 42 9 = some none ∧
    cppContains id cppNew 42 9 = some false ∧
    cppCount id cppNew 42 9 = some 0 ∧
    cppEraseKey id cppNew 42 9 = some (cppNew, 0) :=
  c10_capacity_zero_operations id cppNew 42 9 rfl

/-! ## C7: first insertion into a fresh table -/

/-- C7 counterexample: the first `ht_insert_unique` into a fresh C table
allocates `HT_INITIAL_CAPACITY = 64` slots (not 32) and leaves `size` at 0
(not 1): the initial-allocation path returns before the size increment. -/
theorem c7_c_first_insert_not_32 :
    (htInsertUnique htNew [107] [118] 16).map (fun t => (t.capacity, t.size)) =
      some (64, 0) ∧
    ((64, 0) : Nat × Nat) ≠ (32, 1) := by
  constructor
  · rfl
  · decide

/-- C7 amended: the first insertion into a fresh capacity-0 table allocates
capacity 32 with length 1 in the C++ implementation, but capacity 64 with
`size` left at 0 in the C implementation. -/
theorem c7_first_insertion_fresh_table :
    (∀ (hashf : Nat → Nat) (k v fuel : Nat),
      cppEmplace hashf cppNew k v (fuel + 1) =
        some (⟨32, 1, (List.replicate 32 none).set (cppHash hashf k 32) (some (k, v))⟩,
              cppHash hashf k 32, true)) ∧
    (∀ (key val : CStr) (fuel : Nat),
      htInsertUnique htNew key val fuel =
        some ⟨64, 0, (List.replicate 64 none).set (htHash key 64) (some (key, val))⟩) := by
  constructor
  · intro hashf k v fuel
    have h1 : cppIndexOf hashf cppNew k (fuel + 1) = some (false, 0) := rfl
    unfold cppEmplace
    rw [h1]
    unfold cppEmplaceUniqueHint
    simp only [cppNew, List.getD_nil, Option.isNone_none, ite_true, ite_false,
      Nat.shiftLeft_eq]
    rw [if_neg (by norm_num)]
    simp only [cppInnerInsert, cppInnerInsertAux, getD_replicate_none]
    rw [if_neg (by norm_num)]
  · intro key val fuel
    rfl

/-! ## C8: insert on an existing key -/

/-- C8 counterexample: in the C implementation, `ht_insert` of the key
`"k"` with value `"v2"` after inserting it with `"v1"` replaces the stored
value (insert-or-assign semantics), so the stored value does not remain
`"v1"` as the claim states. -/
theorem c8_c_insert_replaces_value :
    htInsert htNew [107] [118, 49] 16 =
      some ⟨64, 0, (List.replicate 64 none).set 8 (some ([107], [118, 49]))⟩ ∧
    htInsert ⟨64, 0, (List.replicate 64 none).set 8 (some ([107], [118, 49]))⟩
        [107] [118, 50] 16 =
      some ⟨64, 0, (List.replicate 64 none).set 8 (some ([107], [118, 50]))⟩ ∧
    ([118, 50] : CStr) ≠ [118, 49] := by
  refine ⟨by decide, by decide, by decide⟩

/-- C8 amended: in the C++ implementation, `emplace` (hence `insert`) on a
present key is a no-op returning the existing handle and `false`; in the C
implementation, `ht_insert` on a present key replaces the stored value in
place, keeping the stored key and `size`. -/
theorem c8_insert_existing_key_semantics :
    (∀ (hashf : Nat → Nat) (t : CppTable) (k v fuel i : Nat),
      cppIndexOf hashf t k fuel = some (true, i) →
      cppEmplace hashf t k v fuel = some (t, i, false)) ∧
    (∀ (t : HtC) (key val : CStr) (fuel i : Nat) (k0 v0 : CStr),
      htFind t key fuel = some (some i) →
      t.items.getD i none = some (k0, v0) →
      htInsert t key val fuel =
        some { t with items := t.items.set i (some (k0, val)) }) := by
  constructor
  · intro hashf t k v fuel i h
    unfold cppEmplace
    rw [h]
  · intro t key val fuel i k0 v0 hfind hslot
    unfold htInsert
    rw [hfind]
    simp only [hslot]

/-- Witness for C8 on concrete tables for both implementations. -/
theorem c8_insert_existing_key_semantics_witness :
    cppEmplace id ⟨32, 1, (List.replicate 32 none).set 2 (some (5, 7))⟩ 5 9 4 =
      some (⟨32, 1, (List.replicate 32 none).set 2 (some (5, 7))⟩, 2, false) ∧
    htInsert ⟨64, 0, (List.replicate 64 none).set 8 (some ([107], [118, 49]))⟩
        [107] [118, 50] 4 =
      some ⟨64, 0,
        ((List.replicate 64 none).set 8 (some ([107], [118, 49]))).set 8
          (some ([107], [118, 50]))⟩ :=
  ⟨c8_insert_existing_key_semantics.1 id _ 5 9 4 2 (by decide),
   c8_insert_existing_key_semantics.2 _ [107] [118, 50] 4 8 [107] [118, 49]
     (by decide) (by decide)⟩

/-! ## C1: erase and probe chains through the hole -/

/-- C1: with the identity hasher and bucket hint 8, the keys 1, 9 and 17
all map to home slot 4 and occupy slots 4, 5, 6; `erase(9)` merely empties
slot 5 (no backward shift), after which `find(17)` stops at the hole and
reports the still-stored key 17 absent — the claimed repair is missing. -/
theorem c1_erase_breaks_chained_lookup :
    (do
      let r1 ← cppEmplace id (cppMk 8) 1 10 16
      let r2 ← cppEmplace id r1.1 9 20 16
      let r3 ← cppEmplace id r2.1 17 30 16
      let r4 ← cppEraseKey id r3.1 9 16
      pure (r3.1, r4.1)) =
      some (⟨8, 3, [none, none, none, none, some (1, 10), some (9, 20), some (17, 30), none]⟩,
            ⟨8, 2, [none, none, none, none, some (1, 10), none, some (17, 30), none]⟩) ∧
    cppFind id ⟨8, 3, [none, none, none, none, some (1, 10), some (9, 20), some (17, 30), none]⟩
      17 16 = some (some 6) ∧
    cppFind id ⟨8, 2, [none, none, none, none, some (1, 10), none, some (17, 30), none]⟩
      17 16 = some none ∧
    (⟨8, 2, [none, none, none, none, some (1, 10), none, some (17, 30), none]⟩ :
      CppTable).items.getD 6 none = some (17, 30) := by
  refine ⟨by decide, by decide, by decide, by decide⟩

/-! ## C3: shrink_to_fit -/

/-- C3: `HashTable::shrink_to_fit` computes `bit_ceil` of the *capacity*
(already a power of two) instead of the length, so on every non-empty table
it is the identity and never lowers the capacity — in particular a table
with 1000 entries and capacity 4096 keeps capacity 4096, not the claimed
1024. (The C `ht_shrink_to_fit` rounds `size` instead and does shrink.) -/
theorem c3_shrink_to_fit_never_shrinks (hashf : Nat → Nat) (t : CppTable)
    (fuel n : Nat) (hlen : t.len ≠ 0) (hn : n ≤ 63) (hcap : t.capacity = 2 ^ n) :
    cppShrinkToFit hashf t fuel = some t := by
  unfold cppShrinkToFit
  rw [if_neg hlen]
  simp only [hcap, bit_ceil_two_pow n hn, ge_iff_le, le_refl, if_true]

/-- Witness for C3: a table with one entry and capacity 4 keeps capacity 4
(the claim would give capacity 1). -/
theorem c3_shrink_to_fit_never_shrinks_witness :
    cppShrinkToFit id ⟨4, 1, [some (0, 0), none, none, none]⟩ 3 =
      some ⟨4, 1, [some (0, 0), none, none, none]⟩ :=
  c3_shrink_to_fit_never_shrinks id _ 3 2 (by decide) (by decide) (by decide)

/-! ## C4: probe termination bound -/

/-- One step of the lookup loop on the completely full two-slot table never
reaches an empty slot or a match, and the dead `attempts` guard never
fires, for any fuel. -/
theorem cppIndexOfAux_full_two_none :
    ∀ (fuel idx : Nat), idx < 2 →
      cppIndexOfAux ⟨2, 2, [some (0, 0), some (1, 0)]⟩ 2 idx 0 fuel = none := by
  intro fuel
  induction fuel with
  | zero => intro idx _; rfl
  | succ f ih =>
    intro idx h
    interval_cases idx
    · exact ih 1 (by norm_num)
    · exact ih 0 (by norm_num)

/-- C4: the table `{(0,0) at slot 0, (1,0) at slot 1}` with capacity 2 is
reachable through two `operator[]` insertions (which perform no resize
check), and on it a lookup of the absent key 2 never terminates: the
`attempts` counter of `index_of` is never incremented, so the probe bound
the claim describes never applies. -/
theorem c4_full_table_lookup_never_ends :
    (do
      let r1 ← cppFindOrInsert id (cppMk 2) 0 16
      let r2 ← cppFindOrInsert id r1.1 1 16
      pure r2.1) = some ⟨2, 2, [some (0, 0), some (1, 0)]⟩ ∧
    ∀ fuel : Nat,
      cppIndexOf id ⟨2, 2, [some (0, 0), some (1, 0)]⟩ 2 fuel = none := by
  constructor
  · decide
  · intro fuel
    have hstart : cppHash id 2 2 = 0 := by decide
    unfold cppIndexOf
    rw [if_neg (by decide), hstart]
    exact cppIndexOfAux_full_two_none fuel 0 (by norm_num)

/-! ## C5: collision-resolution step -/

/-- C5 counterexample: in the C implementation, inserting the key `"f"`
(home slot 0, capacity 8) into an array whose slots 0 and 1 are occupied
probes 0, then 1, then 4: after the occupied non-matching slot at index 1
the next probed index is `(1 + (1 << 1) + 1) & 7 = 4`, not the claimed
`(1 + 1) & 7 = 2`, and the key lands in slot 4 with slots 2 and 3 empty. -/
theorem c5_c_probe_step_not_linear :
    htInsertInner
      [some ([97], [97]), some ([98], [98]), none, none, none, none, none, none]
      8 [102] [99] 16 =
      some ([some ([97], [97]), some ([98], [98]), none, none,
             some ([102], [99]), none, none, none], 4) ∧
    (1 + (1 <<< 1) + 1) &&& (8 - 1) = 4 ∧
    ((1 + 1) &&& (8 - 1) : Nat) = 2 ∧ (4 : Nat) ≠ 2 := by
  refine ⟨by decide, by decide, by decide, by decide⟩

/-- C5 amended: in `hash-table.hpp`, both the lookup loop (`index_of`) and
the insertion loop (`inner_insert`) step from an occupied non-matching slot
at index `i` to exactly `(i + 1) & (capacity - 1)`; in `ht-hash.c`, the
probe of `ht_find` (and `ht_insert_inner`) steps to
`(i + 2·attempts + 1) & (capacity - 1)` with `attempts` incremented each
collision — odd increments 1, 3, 5, …, linear only on the first step. -/
theorem c5_probe_step_shapes :
    (∀ (t : CppTable) (key index attempts fuel kk vv : Nat),
      t.items.getD index none = some (kk, vv) → kk ≠ key →
      ¬ attempts > t.capacity →
      cppIndexOfAux t key index attempts (fuel + 1) =
        cppIndexOfAux t key ((index + 1) &&& (t.capacity - 1)) attempts fuel) ∧
    (∀ (cap : Nat) (pair : Nat × Nat) (items : List CppSlot) (index fuel : Nat)
      (p : Nat × Nat), items.getD index none = some p →
      cppInnerInsertAux cap pair items index (fuel + 1) =
        cppInnerInsertAux cap pair items ((index + 1) &&& (cap - 1)) fuel) ∧
    (∀ (t : HtC) (key : CStr) (index attempts fuel : Nat) (kk vv : CStr),
      t.items.getD index none = some (kk, vv) → htKeyMatch kk key = false →
      ¬ attempts > t.size <<< 1 →
      htFindAux t key index attempts (fuel + 1) =
        htFindAux t key ((index + (attempts <<< 1) + 1) &&& (t.capacity - 1))
          (attempts + 1) fuel) := by
  refine ⟨?_, ?_, ?_⟩
  · intro t key index attempts fuel kk vv hslot hne hguard
    conv_lhs => rw [cppIndexOfAux]
    rw [hslot]
    simp [hne, hguard]
  · intro cap pair items index fuel p hslot
    conv_lhs => rw [cppInnerInsertAux]
    rw [hslot]
  · intro t key index attempts fuel kk vv hslot hmatch hguard
    conv_lhs => rw [htFindAux]
    rw [hslot]
    simp [hmatch, hguard]

/-- Witness for C5 instantiating all three probe-step statements. -/
theorem c5_probe_step_shapes_witness :
    cppIndexOfAux ⟨2, 2, [some (0, 0), some (1, 0)]⟩ 2 0 0 2 =
      cppIndexOfAux ⟨2, 2, [some (0, 0), some (1, 0)]⟩ 2 ((0 + 1) &&& (2 - 1)) 0 1 ∧
    cppInnerInsertAux 8 (5, 5) [some (1, 1), none] 0 3 =
      cppInnerInsertAux 8 (5, 5) [some (1, 1), none] ((0 + 1) &&& (8 - 1)) 2 ∧
    htFindAux ⟨8, 2, [some ([97], [97]), some ([98], [98])]⟩ [102] 1 1 2 =
      htFindAux ⟨8, 2, [some ([97], [97]), some ([98], [98])]⟩ [102]
        ((1 + (1 <<< 1) + 1) &&& (8 - 1)) (1 + 1) 1 :=
  ⟨c5_probe_step_shapes.1 _ 2 0 0 1 0 0 (by decide) (by decide) (by decide),
   c5_probe_step_shapes.2.1 8 (5, 5) _ 0 2 (1, 1) (by decide),
   c5_probe_step_shapes.2.2 _ [102] 1 1 1 [98] [98] (by decide) (by decide)
     (by decide)⟩

/-! ## C2: load-factor bound -/
/-- Left shift by 1 is doubling. -/
theorem shiftL1 (x : Nat) : x <<< 1 = 2 * x := by
  rw [Nat.shiftLeft_eq]; ring

/-- Left shift by 2 is multiplication by 4. -/
theorem shiftL2 (x : Nat) : x <<< 2 = 4 * x := by
  rw [Nat.shiftLeft_eq]; norm_num; ring

/-- A successful `emplace_unique_hint` preserves the relaxed load bound
`4·len ≤ 3·capacity + 4` on any state where an unallocated table is empty. -/
theorem cppEmplaceUniqueHint_load_bound {hashf : Nat → Nat} {t : CppTable}
    {hintIdx : Nat} {pair : Nat × Nat} {fuel : Nat} {t' : CppTable} {i : Nat}
    {b : Bool} (hzero : t.capacity = 0 → t.len = 0)
    (hpre : 4 * t.len ≤ 3 * t.capacity + 4)
    (h : cppEmplaceUniqueHint hashf t hintIdx pair fuel = some (t', i, b)) :
    4 * t'.len ≤ 3 * t'.capacity + 4 := by
  simp only [cppEmplaceUniqueHint, shiftL1, shiftL2] at h
  split at h
  · split at h
    · simp only [Option.some.injEq, Prod.mk.injEq] at h
      obtain ⟨h1, -, -⟩ := h
      subst h1
      simpa using hpre
    · split at h
      · rename_i hcond
        split at h
        · exact absurd h (by simp)
        · rename_i t2 heq
          simp only [Option.some.injEq, Prod.mk.injEq] at h
          obtain ⟨h1, -, -⟩ := h
          subst h1
          have hl : t2.len = t.len + 1 := (cppReserveExact_len_cap heq).1
          have hc : t2.capacity = 2 * t.capacity := (cppReserveExact_len_cap heq).2
          rw [hl, hc]
          omega
      · rename_i hcond
        simp only [Option.some.injEq, Prod.mk.injEq] at h
        obtain ⟨h1, -, -⟩ := h
        subst h1
        show 4 * (t.len + 1) ≤ 3 * t.capacity + 4
        omega
  · by_cases hc0 : t.capacity = 0
    · rw [if_pos hc0] at h
      rw [if_neg (show ¬ 4 * t.len > 2 * 32 + 32 by omega)] at h
      split at h
      · exact absurd h (by simp)
      · rename_i items idx heq
        simp only [Option.some.injEq, Prod.mk.injEq] at h
        obtain ⟨h1, -, -⟩ := h
        subst h1
        show 4 * (t.len + 1) ≤ 3 * 32 + 4
        omega
    · rw [if_neg hc0] at h
      split at h
      · rename_i hcond
        split at h
        · exact absurd h (by simp)
        · rename_i t2 heq
          split at h
          · exact absurd h (by simp)
          · rename_i items idx heq2
            simp only [Option.some.injEq, Prod.mk.injEq] at h
            obtain ⟨h1, -, -⟩ := h
            subst h1
            show 4 * t2.len ≤ 3 * t2.capacity + 4
            have hl : t2.len = t.len + 1 := (cppReserveExact_len_cap heq).1
            have hc : t2.capacity = 2 * t.capacity := (cppReserveExact_len_cap heq).2
            rw [hl, hc]
            omega
      · rename_i hcond
        split at h
        · exact absurd h (by simp)
        · rename_i items idx heq
          simp only [Option.some.injEq, Prod.mk.injEq] at h
          obtain ⟨h1, -, -⟩ := h
          subst h1
          show 4 * (t.len + 1) ≤ 3 * t.capacity + 4
          omega

/-- C2 amended: the insertions that route through `emplace_unique_hint`
(`insert`, `insert_or_assign`, `emplace`, `emplace_or_assign`) and
`insert_unique` preserve `4·length ≤ 3·capacity + 4`, i.e. resize keeps the
load factor at most `0.75 + 1/capacity`: the check compares the
*pre-increment* length with `0.75·capacity`, so one insertion beyond the
threshold is accepted. (`find_or_insert`, `operator[]` and `emplace_hint`
perform no resize check at all and are excluded.) -/
theorem c2_insertions_keep_relaxed_load_bound :
    (∀ (hashf : Nat → Nat) (t : CppTable) (k v fuel : Nat) (t' : CppTable)
      (i : Nat) (b : Bool), (t.capacity = 0 → t.len = 0) →
      4 * t.len ≤ 3 * t.capacity + 4 →
      cppEmplace hashf t k v fuel = some (t', i, b) →
      4 * t'.len ≤ 3 * t'.capacity + 4) ∧
    (∀ (hashf : Nat → Nat) (t : CppTable) (k v fuel : Nat) (t' : CppTable)
      (i : Nat) (b : Bool), (t.capacity = 0 → t.len = 0) →
      4 * t.len ≤ 3 * t.capacity + 4 →
      cppInsertUnique hashf t k v fuel = some (t', i, b) →
      4 * t'.len ≤ 3 * t'.capacity + 4) := by
  constructor
  · intro hashf t k v fuel t' i b hzero hpre h
    unfold cppEmplace at h
    cases hidx : cppIndexOf hashf t k fuel with
    | none => rw [hidx] at h; exact absurd h (by simp)
    | some r =>
      rw [hidx] at h
      obtain ⟨found, idx⟩ := r
      cases found
      · exact cppEmplaceUniqueHint_load_bound hzero hpre h
      · simp only [Option.some.injEq, Prod.mk.injEq] at h
        obtain ⟨h1, -, -⟩ := h
        subst h1
        exact hpre
  · intro hashf t k v fuel t' i b hzero hpre h
    simp only [cppInsertUnique, shiftL1, shiftL2] at h
    by_cases hc0 : t.capacity = 0
    · rw [if_pos hc0] at h
      rw [if_neg (show ¬ 4 * t.len > 2 * 32 + 32 by omega)] at h
      split at h
      · exact absurd h (by simp)
      · rename_i items idx heq
        simp only [Option.some.injEq, Prod.mk.injEq] at h
        obtain ⟨h1, -, -⟩ := h
        subst h1
        show 4 * (t.len + 1) ≤ 3 * 32 + 4
        have := hzero hc0
        omega
    · rw [if_neg hc0] at h
      split at h
      · rename_i hcond
        split at h
        · exact absurd h (by simp)
        · rename_i t2 heq
          split at h
          · exact absurd h (by simp)
          · rename_i items idx heq2
            simp only [Option.some.injEq, Prod.mk.injEq] at h
            obtain ⟨h1, -, -⟩ := h
            subst h1
            show 4 * t2.len ≤ 3 * t2.capacity + 4
            have hl : t2.len = t.len + 1 := (cppReserveExact_len_cap heq).1
            have hc : t2.capacity = 2 * t.capacity := (cppReserveExact_len_cap heq).2
            rw [hl, hc]
            omega
      · rename_i hcond
        split at h
        · exact absurd h (by simp)
        · rename_i items idx heq
          simp only [Option.some.injEq, Prod.mk.injEq] at h
          obtain ⟨h1, -, -⟩ := h
          subst h1
          show 4 * (t.len + 1) ≤ 3 * t.capacity + 4
          omega

/-- C2 counterexample: two `operator[]` insertions into a table constructed
with bucket hint 2 are public operations that reach a state with nonzero
capacity and load factor 1: `find_or_insert` performs no resize check. -/
theorem c2_load_factor_exceeded_reachably :
    (do
      let r1 ← cppFindOrInsert id (cppMk 2) 0 16
      let r2 ← cppFindOrInsert id r1.1 1 16
      pure r2.1) = some ⟨2, 2, [some (0, 0), some (1, 0)]⟩ ∧
    (⟨2, 2, [some (0, 0), some (1, 0)]⟩ : CppTable).capacity ≠ 0 ∧
    ¬ 4 * (⟨2, 2, [some (0, 0), some (1, 0)]⟩ : CppTable).len ≤
        3 * (⟨2, 2, [some (0, 0), some (1, 0)]⟩ : CppTable).capacity := by
  refine ⟨by decide, by decide, by decide⟩

/-- Witness for C2 instantiating both insertion paths on the fresh table. -/
theorem c2_insertions_keep_relaxed_load_bound_witness :
    4 * (⟨32, 1, (List.replicate 32 none).set 2 (some (5, 7))⟩ : CppTable).len ≤
      3 * (⟨32, 1, (List.replicate 32 none).set 2 (some (5, 7))⟩ : CppTable).capacity + 4 ∧
    4 * (⟨32, 1, (List.replicate 32 none).set 2 (some (5, 7))⟩ : CppTable).len ≤
      3 * (⟨32, 1, (List.replicate 32 none).set 2 (some (5, 7))⟩ : CppTable).capacity + 4 :=
  ⟨c2_insertions_keep_relaxed_load_bound.1 id cppNew 5 7 1 _ 2 true
      (fun _ => rfl) (by decide) (by decide),
   c2_insertions_keep_relaxed_load_bound.2 id cppNew 5 7 1 _ 2 true
      (fun _ => rfl) (by decide) (by decide)⟩
